import Mathlib

/-!
Verification development for the rokugo query runtime
(`crates/query`: `src/lib.rs`, `src/arena.rs`, `src/name.rs`).

The development is a shallow embedding: each Rust function of the runtime is
translated into an executable Lean definition, and the specification claims are
settled as theorems about those definitions.  Machine integers are modelled as
`Nat` with explicit `% 2 ^ 64` where wrap-around matters; Rust panics and
out-of-bounds accesses are modelled with `Option`/`Except` or an explicit
`panicked` flag.  Loops that are not structurally recursive are written with an
explicit fuel argument that is always instantiated with an exact upper bound on
the iteration count, so every definition reduces inside the kernel.
-/

set_option maxRecDepth 100000

namespace RQ

/-! ## Model of `name.rs` (`Name`, `Name::fxhash`) -/

/-- Reduces a value modulo `2 ^ 64`, the wrap-around of Rust `u64` arithmetic. -/
def u64 (n : Nat) : Nat := n % 2 ^ 64

/-- Model of `u64::rotate_left(5)` for arguments below `2 ^ 64`: the low 59 bits
move up by 5 places and the high 5 bits wrap to the bottom. -/
def rotl5 (h : Nat) : Nat := h * 2 ^ 5 % 2 ^ 64 + h / 2 ^ 59

/-- Hash mixing constant `K` of `Name::fxhash` in `name.rs`. -/
def fxK : Nat := 0x517cc1b727220a95

/-- Model of the `add_to_hash!` step of `Name::fxhash`:
`hash = (hash.rotate_left(5) ^ chunk).wrapping_mul(K)`. -/
def addToHash (h chunk : Nat) : Nat := u64 ((Nat.xor (rotl5 h) chunk) * fxK)

/-- Reads `n` bytes of `bytes` starting at index `i` as a little-endian value.
Returns `none` when an index is out of bounds, which in the const evaluation of
`Name::fxhash` is an `index out of bounds` panic (a compile error).  The 4-byte
and 2-byte tail chunks of the source use `from_ne_bytes`; the repository
targets little-endian platforms, so native order is modelled as little-endian,
matching the note in the spec that consistency within one build suffices. -/
def leChunk (bytes : List Nat) (i : Nat) : Nat → Option Nat
  | 0 => some 0
  | n + 1 =>
    match bytes.get? i with
    | none => none
    | some b => (leChunk bytes (i + 1) n).map (fun rest => b + 256 * rest)

/-- Model of the main `while bytes.len() >= size_of::<usize>()` loop of
`Name::fxhash`.  The loop condition tests the length of the whole slice, which
never changes, while only the cursor `i` advances, so the loop exits normally
only when the condition fails on entry; otherwise it runs until an index is out
of bounds.  The fuel argument only bounds the iteration count; `fxhashMain`
below supplies `bytes.length + 1`, which is enough fuel for the loop to reach
its exit or its out-of-bounds panic. -/
def fxhashGo (bytes : List Nat) : Nat → Nat → Nat → Option (Nat × Nat)
  | 0, _, _ => none
  | fuel + 1, i, h =>
    if 8 ≤ bytes.length then
      match leChunk bytes i 8 with
      | none => none
      | some c => fxhashGo bytes fuel (i + 8) (addToHash h c)
    else some (i, h)

/-- Entry point of the 8-byte main loop of `Name::fxhash` with exact fuel. -/
def fxhashMain (bytes : List Nat) : Option (Nat × Nat) :=
  fxhashGo bytes (bytes.length + 1) 0 0

/-- Model of `Name::fxhash` in `name.rs`.  After the 8-byte main loop, the
source consumes a 4-byte, a 2-byte and a 1-byte tail chunk, each guarded by a
test on `bytes.len()` (the length of the whole slice, not of the remaining
bytes).  `size_of::<usize>()` is 8, so every `size_of` guard is true.  The
result is `none` exactly when the const evaluation of the source panics with an
index out of bounds. -/
def fxhash (bytes : List Nat) : Option Nat :=
  match fxhashMain bytes with
  | none => none
  | some (i0, h0) =>
    match (if 4 ≤ bytes.length then
        (leChunk bytes i0 4).map (fun c => (i0 + 4, addToHash h0 c))
      else some (i0, h0)) with
    | none => none
    | some (i1, h1) =>
      match (if 2 ≤ bytes.length then
          (leChunk bytes i1 2).map (fun c => (i1 + 2, addToHash h1 c))
        else some (i1, h1)) with
      | none => none
      | some (i2, h2) =>
        if 1 ≤ bytes.length then (leChunk bytes i2 1).map (addToHash h2)
        else some h2

/-- Model of `Name`: the pre-computed 64-bit hash together with the retained
byte string. -/
structure RName where
  hash : Nat
  str : List Nat
deriving DecidableEq, Repr

/-- Model of `Name::new`: computes the hash of the bytes at compile time.
`none` models the const-evaluation panic of `Name::fxhash`. -/
def nameNew (s : List Nat) : Option RName :=
  (fxhash s).map (fun h => { hash := h, str := s })

/-- Model of `impl PartialEq for Name`: equality compares only the hash, the
string plays no part.  `impl Hash for Name` likewise feeds only `self.hash` to
the hasher. -/
def nameEq (a b : RName) : Bool := a.hash == b.hash

/-- UTF-8 bytes of the string literal `"AddTwo"`, the query name used by the
doc example of `Scheduler::query` in `lib.rs`. -/
def addTwoBytes : List Nat := [0x41, 0x64, 0x64, 0x54, 0x77, 0x6f]

/-- UTF-8 bytes of the string literal `"Fib"`, the query name used by
`tests/rec_fib.rs` and `benches/fib.rs`. -/
def fibBytes : List Nat := [0x46, 0x69, 0x62]

/-! ## Model of `Ongoing` (`impl Future for Ongoing` in `lib.rs`) -/

/-- Model of `std::task::Poll`. -/
inductive PollRes (α : Type) where
  | ready (value : α)
  | pending
deriving DecidableEq, Repr

/-- Model of `impl Future for Ongoing`: the cell of the handle is an
`Option R` (`OnceLock` contents), `cx` stands for the `&mut Context` argument,
which the body never touches (it is bound as `_cx`).  The Boolean in the result
records whether the poll registered the context waker anywhere; the body does
nothing with the context, so it is always `false`. -/
def ongoingPoll {R C : Type} (cell : Option R) (_cx : C) : PollRes R × Bool :=
  match cell with
  | some v => (PollRes.ready v, false)
  | none => (PollRes.pending, false)

/-! ## Model of `arena.rs` -/

/-- Size, alignment and drop behaviour of a Rust type `T`, the data the arena
code extracts from `T` via `Layout::new` and `needs_drop`. -/
structure TypeDesc where
  size : Nat
  align : Nat
  needsDrop : Bool
deriving DecidableEq, Repr

/-- Rounds `n` up to the next multiple of `a`, the Rust layout arithmetic
(alignments are positive powers of two). -/
def roundUp (n a : Nat) : Nat := (n + a - 1) / a * a

/-- Size of `Layout::new::<Allocation<T>>()` in `Arena::alloc_ptr`.
`Allocation<T>` is `repr(C)` with a `layout: Layout` header (two `usize`
words: 16 bytes, align 8) followed by the `data: T` field, so its size is the
header, padding to the alignment of `T`, the value, padded to the struct
alignment `max 8 (align T)`. -/
def allocationSize (t : TypeDesc) : Nat :=
  roundUp (roundUp 16 t.align + t.size) (max 8 t.align)

/-- Result of `Arena::alloc_ptr`: either the `NonNull::dangling()` sentinel of
the zero-size branch, or a pointer into the heap block registered at the given
position of the `allocs` list. -/
inductive APtr where
  | dangling (align : Nat)
  | heap (pos : Nat)
deriving DecidableEq, Repr

/-- State of one `Arena`: its process-unique index, the all-allocations list
(`allocs`, storing the erased pointer and layout, modelled by the `TypeDesc`
of the value) and the drop-needed list (`droppers`, storing the `alloc_index`
of each registered drop thunk), both in registration order. -/
structure ArenaState where
  index : Nat
  allocs : List TypeDesc
  droppers : List Nat
deriving DecidableEq, Repr

/-- Arena with no allocations (the lists of `Arena::new`), at index 0. -/
def arenaInit : ArenaState := { index := 0, allocs := [], droppers := [] }

/-- Model of `Arena::new` given the current value of the process-wide
`ARENA_COUNTER`: the new arena takes the counter value as its index and the
counter is bumped (`fetch_add(1, Relaxed)`). -/
def arenaNew (counter : Nat) : ArenaState × Nat :=
  ({ index := counter, allocs := [], droppers := [] }, counter + 1)

/-- Counter value after `n` calls of `Arena::new` starting from `c0`. -/
def counterAfter (c0 : Nat) : Nat → Nat
  | 0 => c0
  | n + 1 => (arenaNew (counterAfter c0 n)).2

/-- The arena produced by the `n`-th call (0-based) of `Arena::new` when the
process counter starts at `c0`. -/
def arenaAt (c0 n : Nat) : ArenaState := (arenaNew (counterAfter c0 n)).1

/-- Model of `Arena::alloc_ptr`: if `Layout::new::<Allocation<T>>()` has size
zero, return the dangling sentinel without touching any list; otherwise
allocate, append the erased allocation to `allocs`, and if `T` needs drop also
append a dropper recording the allocation index. -/
def allocPtr (st : ArenaState) (t : TypeDesc) : APtr × ArenaState :=
  if allocationSize t = 0 then (APtr.dangling t.align, st)
  else
    let i := st.allocs.length
    let st1 := { st with allocs := st.allocs ++ [t] }
    let st2 := if t.needsDrop then { st1 with droppers := st1.droppers ++ [i] } else st1
    (APtr.heap i, st2)

/-- Model of `Arena::alloc`: allocates and returns the pointer to the data
(the mutable borrow). -/
def alloc (st : ArenaState) (t : TypeDesc) : APtr × ArenaState := allocPtr st t

/-- Model of `Arena::alloc_pinned`: same allocation, pinned borrow. -/
def allocPinned (st : ArenaState) (t : TypeDesc) : APtr × ArenaState := alloc st t

/-- Shared handle `Ref<T>`: raw pointer plus the index of the owning arena. -/
structure ARef where
  ptr : APtr
  arenaIndex : Nat
deriving DecidableEq, Repr

/-- Owning handle `Own<T>`: same representation as `Ref<T>`, not copyable. -/
structure AOwn where
  ptr : APtr
  arenaIndex : Nat
deriving DecidableEq, Repr

/-- Owning pinned handle `OwnPinned<T>`. -/
structure AOwnPinned where
  ptr : APtr
  arenaIndex : Nat
deriving DecidableEq, Repr

/-- Model of `Arena::alloc_own`: allocates and wraps the pointer with this
arena's index. -/
def allocOwn (st : ArenaState) (t : TypeDesc) : AOwn × ArenaState :=
  let (p, st1) := allocPtr st t
  ({ ptr := p, arenaIndex := st.index }, st1)

/-- Model of `Arena::alloc_own_pinned`. -/
def allocOwnPinned (st : ArenaState) (t : TypeDesc) : AOwnPinned × ArenaState :=
  let (p, st1) := allocPtr st t
  ({ ptr := p, arenaIndex := st.index }, st1)

/-- Model of `Own::downgrade`. -/
def ownDowngrade (o : AOwn) : ARef := { ptr := o.ptr, arenaIndex := o.arenaIndex }

/-- The distinguished error of `Arena::try_get` and friends. -/
inductive DifferentArenaError where
  | mk
deriving DecidableEq, Repr

/-- Model of `Arena::try_get`: the borrow (modelled by the pointer to the
referent) when the arena index of the handle matches, the distinguished error
otherwise. -/
def tryGet (st : ArenaState) (r : ARef) : Except DifferentArenaError APtr :=
  if r.arenaIndex = st.index then Except.ok r.ptr else Except.error DifferentArenaError.mk

/-- Model of `Arena::try_get_mut` (takes the owning handle). -/
def tryGetMut (st : ArenaState) (o : AOwn) : Except DifferentArenaError APtr :=
  if o.arenaIndex = st.index then Except.ok o.ptr else Except.error DifferentArenaError.mk

/-- Model of `Arena::try_get_mut_pinned`. -/
def tryGetMutPinned (st : ArenaState) (o : AOwnPinned) : Except DifferentArenaError APtr :=
  if o.arenaIndex = st.index then Except.ok o.ptr else Except.error DifferentArenaError.mk

/-- Model of `Arena::get`: `self.try_get(re).unwrap()`.  `none` models the
panic of `unwrap` on `Err(DifferentArenaError)`. -/
def arenaGet (st : ArenaState) (r : ARef) : Option APtr := (tryGet st r).toOption

/-- Model of `Arena::get_mut`: `self.try_get_mut(re).unwrap()`. -/
def arenaGetMut (st : ArenaState) (o : AOwn) : Option APtr := (tryGetMut st o).toOption

/-- Model of `Arena::get_mut_pinned`: `self.try_get_mut_pinned(re).unwrap()`. -/
def arenaGetMutPinned (st : ArenaState) (o : AOwnPinned) : Option APtr :=
  (tryGetMutPinned st o).toOption

/-- Events of `impl Drop for Arena`, in execution order: running the drop
thunk registered for an allocation index, and deallocating an allocation. -/
inductive DropEvent where
  | runDropper (allocIndex : Nat)
  | dealloc (allocIndex : Nat)
deriving DecidableEq, Repr

/-- Model of `impl Drop for Arena`: first `droppers.drain(..)` runs every drop
thunk front to back (so in registration order), then `allocs.drain(..)`
deallocates every allocation front to back. -/
def arenaDropEvents (st : ArenaState) : List DropEvent :=
  st.droppers.map DropEvent.runDropper ++ (List.range st.allocs.length).map DropEvent.dealloc

/-- Allocation index of a destructor-run event. -/
def dropIndexOf : DropEvent → Option Nat
  | DropEvent.runDropper i => some i
  | DropEvent.dealloc _ => none

/-- Allocation indices whose destructors run, in execution order, when the
arena is dropped. -/
def dropRunOrder (st : ArenaState) : List Nat :=
  (arenaDropEvents st).filterMap dropIndexOf

/-- Runs a sequence of arena allocations left to right, `ts` in program
order. -/
def allocMany (st : ArenaState) : List TypeDesc → ArenaState
  | [] => st
  | t :: ts => allocMany (allocPtr st t).2 ts

/-- Indices (relative to a base position in the `allocs` list) of the
allocations of `ts` that need drop, in allocation order. -/
def needDropIndicesFrom (base : Nat) : List TypeDesc → List Nat
  | [] => []
  | t :: ts => (if t.needsDrop then [base] else []) ++ needDropIndicesFrom (base + 1) ts

/-- Indices of the allocations of `ts` that need drop, in allocation order. -/
def needDropIndices (ts : List TypeDesc) : List Nat := needDropIndicesFrom 0 ts

/-- Descriptor of `Vec<i32>` on a 64-bit target (the payload of the `dropping`
arena test): three words, needs drop. -/
def vecDesc : TypeDesc := { size := 24, align := 8, needsDrop := true }

/-- Descriptor of the unit type `()`: the zero-sized type of the `zst` arena
test. -/
def unitDesc : TypeDesc := { size := 0, align := 1, needsDrop := false }

/-! ## Model of the scheduler (`lib.rs`)

The embedding fixes one query kind: a type `Q` of query values (with decidable
equality, standing for the `Eq + Hash` bound) and a result type `R`.  With a
single kind, the `caches_by_type` map of the scheduler resolves to the one
`Cache<Q>`, whose fields `cells` and `enqueued` are carried directly in the
scheduler state.  Result cells are arena-allocated `OnceLock`s; the model gives
each cell a serial number (`nextCell` plays the arena allocation order) and
keeps the filled cells in `cellVal`.  An `Ongoing` handle for `q` wraps the
unique cell of `q`, so awaiting a handle is modelled as awaiting the cell that
the `cells` map assigns to `q`.

A query body (`Q::run`) is a value of `Comp Q R`: it can return, call
`Scheduler::query` (which enqueues immediately and yields a handle for the
argument), and await the handle of a previously requested query.  This is
exactly the interface the runtime offers to queries: cooperative suspension
exists solely to await sibling queries. -/

/-- Body of a query: the computation a `Q::run` future performs when polled.
`request q k` models `scheduler.query(q)` followed by `k` (the returned
`Ongoing` handle wraps the unique cell of `q`); `awaitQ q k` models awaiting
that handle, resuming `k` with the value once the cell of `q` is full. -/
inductive Comp (Q R : Type) : Type where
  | ret (value : R)
  | request (q : Q) (k : Comp Q R)
  | awaitQ (q : Q) (k : R → Comp Q R)

/-- State of the scheduler together with its arena-backed cells.
`cells` is `Cache::cells` (query value to cell handle), `cellVal` the contents
of the filled `OnceLock` cells, `enqueued` is `Cache::enqueued`, `erased` is
`Scheduler::erased_queue` (a `Vec`: pushes append at the back, `pop` takes from
the back), `runs` is the verification counter of `Q::run` invocations (one
entry per invocation), and `panicked` records a `cell.set` on an already
filled cell (`"cell may only be computed once"`). -/
structure St (Q R : Type) where
  nextCell : Nat
  cells : List (Q × Nat)
  cellVal : List (Nat × R)
  enqueued : List Q
  erased : List Q
  runs : List Q
  panicked : Bool

/-- Scheduler state before any query is requested. -/
def stInit (Q R : Type) : St Q R :=
  { nextCell := 0, cells := [], cellVal := [], enqueued := [], erased := [],
    runs := [], panicked := false }

/-- Lookup in an association list, the model of `DashMap` reads. -/
def assoc {α β : Type} [DecidableEq α] : List (α × β) → α → Option β
  | [], _ => none
  | p :: rest, a => if p.1 = a then some p.2 else assoc rest a

variable {Q R : Type}

/-- Model of `Cache::cell`: `cells.entry(q).or_insert_with(|| arena.alloc(OnceLock))`.
Returns the cell handle of `q`, allocating a fresh empty cell when absent. -/
def cacheCell [DecidableEq Q] (st : St Q R) (q : Q) : Nat × St Q R :=
  match assoc st.cells q with
  | some c => (c, st)
  | none =>
    (st.nextCell,
     { st with cells := st.cells ++ [(q, st.nextCell)], nextCell := st.nextCell + 1 })

/-- Model of `Scheduler::query`: resolve the cell of `q`; if the cell is empty
and inserting `q` into the `enqueued` set reports it as new, push the erased
descriptor of `q` onto the back of `erased_queue`; return the handle (the cell
number). -/
def schedQuery [DecidableEq Q] (st : St Q R) (q : Q) : Nat × St Q R :=
  let (cell, st1) := cacheCell st q
  if (assoc st1.cellVal cell).isNone && !(st1.enqueued.contains q) then
    (cell, { st1 with enqueued := st1.enqueued ++ [q], erased := st1.erased ++ [q] })
  else (cell, st1)

/-- Polls the body of a task until it either returns a value or suspends on an
empty cell.  A `request` performs the `Scheduler::query` side effects and
continues; an `awaitQ` on a full cell resumes within the same poll (awaiting a
filled cell completes synchronously), on an empty or absent cell the poll
returns the suspended computation. -/
def pollComp [DecidableEq Q] : St Q R → Comp Q R → St Q R × (Comp Q R ⊕ R)
  | st, Comp.ret v => (st, Sum.inr v)
  | st, Comp.request q k => pollComp (schedQuery st q).2 k
  | st, Comp.awaitQ q k =>
    match assoc st.cells q with
    | none => (st, Sum.inl (Comp.awaitQ q k))
    | some c =>
      match assoc st.cellVal c with
      | some v => pollComp st (k v)
      | none => (st, Sum.inl (Comp.awaitQ q k))

/-- A live task of the trampoline: the materialized future of one erased
descriptor.  It captures the query, the handle of its result cell, the body
still to run, and whether the body was entered (`Q::run` invoked) by a first
poll. -/
structure Task (Q R : Type) where
  query : Q
  cell : Nat
  comp : Comp Q R
  started : Bool

/-- Model of `ErasedQuery::erased_query`: materializes a drained descriptor
into a task.  The source takes the query out of its `Option`, resolves the
cell via `Cache::cell` and allocates the future; the future body
(`query.run(scheduler)` followed by `cell.set` and the `enqueued` removal) is
run on later polls. -/
def materialize [DecidableEq Q] (run : Q → Comp Q R) (st : St Q R) (q : Q) :
    Task Q R × St Q R :=
  let (cell, st1) := cacheCell st q
  ({ query := q, cell := cell, comp := run q, started := false }, st1)

/-- Completion of a task body: `cell.set(value)` followed by removing the query
from the `enqueued` set.  Setting an already filled cell is the
`"cell may only be computed once"` panic, recorded in `panicked`. -/
def finishTask [DecidableEq Q] (st : St Q R) (t : Task Q R) (v : R) : St Q R :=
  if (assoc st.cellVal t.cell).isSome then { st with panicked := true }
  else
    { st with cellVal := st.cellVal ++ [(t.cell, v)],
              enqueued := st.enqueued.erase t.query }

/-- One poll of a live task with the no-op waker: on the first poll the body of
`Q::run` is entered (counted in `runs`); the body then executes until it
returns (the task completes: write the cell, leave the enqueued set; result
`none`) or suspends (result `some` updated task). -/
def pollTask [DecidableEq Q] (st : St Q R) (t : Task Q R) : St Q R × Option (Task Q R) :=
  let st0 := if t.started then st else { st with runs := st.runs ++ [t.query] }
  match pollComp st0 t.comp with
  | (st1, Sum.inl c) => (st1, some { t with comp := c, started := true })
  | (st1, Sum.inr v) => (finishTask st1 { t with started := true } v, none)

/-- Removes the last element of a list, returning it and the remainder: the
model of `Vec::pop`. -/
def popBack {α : Type} : List α → Option (α × List α)
  | [] => none
  | [a] => some (a, [])
  | a :: b :: rest =>
    match popBack (b :: rest) with
    | none => none
    | some (x, r) => some (x, a :: r)

/-- Model of `Vec::swap_remove(i)`: the last element moves into position `i`
and the vector shrinks by one. -/
def swapRemove {α : Type} (l : List α) (i : Nat) : List α :=
  match popBack l with
  | none => l
  | some (a, r) => if i = r.length then r else r.set i a

/-- Model of the drain loop shared by both trampolines:
`while let Some(c) = erased_queue.lock().pop()` materializes descriptors from
the back of the queue and pushes the tasks onto the back of the future queue.
The fuel only bounds the iteration count; `drain` supplies the exact queue
length (each iteration pops one descriptor and materialization never pushes
descriptors). -/
def drainGo [DecidableEq Q] (run : Q → Comp Q R) :
    Nat → St Q R → List (Task Q R) → St Q R × List (Task Q R)
  | 0, st, fq => (st, fq)
  | fuel + 1, st, fq =>
    match popBack st.erased with
    | none => (st, fq)
    | some (q, rest) =>
      let (t, st2) := materialize run { st with erased := rest } q
      drainGo run fuel st2 (fq ++ [t])

/-- The drain loop with its exact fuel. -/
def drain [DecidableEq Q] (run : Q → Comp Q R) (st : St Q R) (fq : List (Task Q R)) :
    St Q R × List (Task Q R) :=
  drainGo run st.erased.length st fq

/-- Model of the polling loop of `Scheduler::trampoline_single_threaded`:
`while i < future_queue.len()` polls the task at `i`; a pending task keeps its
slot and `i` advances, a completed task is removed with `swap_remove(i)` and
the index stays (the former last task is polled next).  The fuel is exact:
each iteration decreases `future_queue.len() - i` by one. -/
def passGoST [DecidableEq Q] :
    Nat → St Q R → List (Task Q R) → Nat → St Q R × List (Task Q R)
  | 0, st, fq, _ => (st, fq)
  | fuel + 1, st, fq, i =>
    match fq.get? i with
    | none => (st, fq)
    | some t =>
      match pollTask st t with
      | (st1, some t1) => passGoST fuel st1 (fq.set i t1) (i + 1)
      | (st1, none) => passGoST fuel st1 (swapRemove fq i) i

/-- One polling pass of the single-threaded trampoline. -/
def passST [DecidableEq Q] (st : St Q R) (fq : List (Task Q R)) : St Q R × List (Task Q R) :=
  passGoST fq.length st fq 0

/-- Model of `Scheduler::trampoline_single_threaded`: drain the pending queue,
poll every live task once, and stop as soon as the future queue is empty after
a pass (the loop tests only `future_queue.is_empty()`).  `none` means the fuel
(a bound on the number of passes) ran out before the loop stopped. -/
def trampST [DecidableEq Q] (run : Q → Comp Q R) :
    Nat → St Q R → List (Task Q R) → Option (St Q R)
  | 0, _, _ => none
  | fuel + 1, st, fq =>
    let (st1, fq1) := drain run st fq
    let (st2, fq2) := passST st1 fq1
    if fq2.isEmpty then some st2 else trampST run fuel st2 fq2

/-- Drain loop of `Scheduler::trampoline_parallel`: identical to the
single-threaded one except that the future queue stores `Option` slots. -/
def drainGoPar [DecidableEq Q] (run : Q → Comp Q R) :
    Nat → St Q R → List (Option (Task Q R)) → St Q R × List (Option (Task Q R))
  | 0, st, fq => (st, fq)
  | fuel + 1, st, fq =>
    match popBack st.erased with
    | none => (st, fq)
    | some (q, rest) =>
      let (t, st2) := materialize run { st with erased := rest } q
      drainGoPar run fuel st2 (fq ++ [some t])

/-- The parallel drain loop with its exact fuel. -/
def drainPar [DecidableEq Q] (run : Q → Comp Q R) (st : St Q R)
    (fq : List (Option (Task Q R))) : St Q R × List (Option (Task Q R)) :=
  drainGoPar run st.erased.length st fq

/-- Polling step of `Scheduler::trampoline_parallel`: `par_iter_mut` polls
every slot exactly once per pass, completed tasks are overwritten with `None`.
The model is the left-to-right linearization of the rayon pass, one feasible
schedule of the work-stealing executor (rayon may run the whole pass on a
single thread in index order).  A `None` slot at poll time is the
`"future queue must be cleared of None"` panic; it cannot occur because the
compaction after each pass removes every `None`. -/
def passGoPar [DecidableEq Q] :
    Nat → St Q R → List (Option (Task Q R)) → Nat → St Q R × List (Option (Task Q R))
  | 0, st, fq, _ => (st, fq)
  | fuel + 1, st, fq, i =>
    match fq.get? i with
    | none => (st, fq)
    | some none => (({ st with panicked := true } : St Q R), fq)
    | some (some t) =>
      match pollTask st t with
      | (st1, some t1) => passGoPar fuel st1 (fq.set i (some t1)) (i + 1)
      | (st1, none) => passGoPar fuel st1 (fq.set i none) (i + 1)

/-- One polling pass of the parallel trampoline. -/
def passPar [DecidableEq Q] (st : St Q R) (fq : List (Option (Task Q R))) :
    St Q R × List (Option (Task Q R)) :=
  passGoPar fq.length st fq 0

/-- Compaction loop of `Scheduler::trampoline_parallel`: `while i < len`, a
`None` slot is removed with `swap_remove(i)` keeping the index, otherwise `i`
advances.  The fuel is exact as in `passGoST`. -/
def compactGo {α : Type} : Nat → List (Option α) → Nat → List (Option α)
  | 0, fq, _ => fq
  | fuel + 1, fq, i =>
    match fq.get? i with
    | Option.none => fq
    | some none => compactGo fuel (swapRemove fq i) i
    | some (some _) => compactGo fuel fq (i + 1)

/-- The compaction loop with its exact fuel. -/
def compact {α : Type} (fq : List (Option α)) : List (Option α) :=
  compactGo fq.length fq 0

/-- Model of `Scheduler::trampoline_parallel`: drain, poll every slot once,
compact, and stop as soon as the future queue is empty (again only
`future_queue.is_empty()` is tested). -/
def trampPar [DecidableEq Q] (run : Q → Comp Q R) :
    Nat → St Q R → List (Option (Task Q R)) → Option (St Q R)
  | 0, _, _ => none
  | fuel + 1, st, fq =>
    let (st1, fq1) := drainPar run st fq
    let (st2, fq2) := passPar st1 fq1
    let fq3 := compact fq2
    if fq3.isEmpty then some st2 else trampPar run fuel st2 fq3

/-- Contents of the result cell of `q`: the read
`cache.cell(arena, q).get()` performed by `Scheduler::request_and_trampoline`
after the trampoline returns. -/
def resultOf [DecidableEq Q] (st : St Q R) (q : Q) : Option R :=
  (assoc st.cells q).bind (assoc st.cellVal)

/-- Requests the seed query and runs the single-threaded trampoline:
`Scheduler::query(q)` (the returned handle is dropped) followed by
`Scheduler::trampoline` with `PollLoop::SingleThreaded`, starting from a fresh
scheduler in a fresh arena. -/
def requestTrampST [DecidableEq Q] (run : Q → Comp Q R) (fuel : Nat) (q : Q) :
    Option (St Q R) :=
  trampST run fuel (schedQuery (stInit Q R) q).2 []

/-- Requests the seed query and runs the parallel trampoline. -/
def requestTrampPar [DecidableEq Q] (run : Q → Comp Q R) (fuel : Nat) (q : Q) :
    Option (St Q R) :=
  trampPar run fuel (schedQuery (stInit Q R) q).2 []

/-- Model of `Scheduler::request_and_trampoline` in single-threaded mode (the
mode of `Trampoline::default()`): request, trampoline, then read the cell of
the seed; `none` models either exhausted fuel or the
`"query should have computed a result into the cache"` panic of the final
`expect`. -/
def requestAndTrampolineST [DecidableEq Q] (run : Q → Comp Q R) (fuel : Nat) (q : Q) :
    Option R :=
  (requestTrampST run fuel q).bind (fun st => resultOf st q)

/-! ## Concrete query programs used by the claims -/

/-- Body of the `Fib` query of `tests/rec_fib.rs`: `Fib(0) = 0`, `Fib(1) = 1`,
otherwise fire the two sub-queries and await both
(`let l = query(Fib(n-1)); let r = query(Fib(n-2)); l.await + r.await`). -/
def fibRun : Nat → Comp Nat Nat := fun n =>
  if n == 0 then Comp.ret 0
  else if n == 1 then Comp.ret 1
  else
    Comp.request (n - 1) (Comp.request (n - 2)
      (Comp.awaitQ (n - 1) (fun l => Comp.awaitQ (n - 2) (fun r => Comp.ret (l + r)))))

/-- Pure, deterministic query family whose seed (query 0) requests query 1 and
returns without awaiting it: the fire-and-forget pattern that
`Scheduler::query` documents as legal (handles are droppable, queries fire on
request). -/
def c1Run : Nat → Comp Nat Nat := fun n =>
  if n == 0 then Comp.request 1 (Comp.ret 0) else Comp.ret 7

/-- Pure, deterministic query family on which the two trampoline modes
diverge.  Query 0 (the seed) fires 1, 2, 3 and awaits 1; query 3 awaits the
seed cell and then fires query 4 without awaiting it; query 2 awaits query 3.
In the final single-threaded pass the poll order puts query 2 before query 3
(a `swap_remove` moved it), so query 2 stays pending, the pass ends with a
live task, and the descriptor of query 4 is drained and executed in the next
pass.  In the parallel pass (linearized in index order) query 2 is polled
after query 3, sees its freshly written cell, and completes in the same pass,
so the trampoline stops with the descriptor of query 4 still queued. -/
def c2Run : Nat → Comp Nat Nat
  | 0 => Comp.request 1 (Comp.request 2 (Comp.request 3
      (Comp.awaitQ 1 (fun _ => Comp.ret 100))))
  | 1 => Comp.ret 10
  | 2 => Comp.awaitQ 3 (fun b => Comp.ret (b + 1))
  | 3 => Comp.awaitQ 0 (fun _ => Comp.request 4 (Comp.ret 30))
  | 4 => Comp.ret 40
  | _ => Comp.ret 0

/-- Trivial query body used where only the drain order matters. -/
def constRun : Nat → Comp Nat Nat := fun _ => Comp.ret 0

/-- Scheduler state whose pending queue holds the descriptors of queries 10
and 20, enqueued in this order by two `Scheduler::query` calls. -/
def twoPendingSt : St Nat Nat := (schedQuery ((schedQuery (stInit Nat Nat) 10).2) 20).2

/-! ## Supporting lemmas -/

theorem le_roundUp (n : Nat) {a : Nat} (ha : 0 < a) : n ≤ roundUp n a := by
  unfold roundUp
  have h1 : (n + a - 1) % a < a := Nat.mod_lt _ ha
  have h2 := Nat.div_add_mod (n + a - 1) a
  rw [Nat.mul_comm] at h2
  omega

theorem allocationSize_ge (t : TypeDesc) (ha : 0 < t.align) : 16 ≤ allocationSize t := by
  unfold allocationSize
  have hmax : 0 < max 8 t.align :=
    Nat.lt_of_lt_of_le (by norm_num) (Nat.le_max_left 8 t.align)
  have h1 : (16 : Nat) ≤ roundUp 16 t.align := le_roundUp 16 ha
  have h2 : roundUp 16 t.align + t.size
      ≤ roundUp (roundUp 16 t.align + t.size) (max 8 t.align) := le_roundUp _ hmax
  omega

theorem allocPtr_of_pos (st : ArenaState) (t : TypeDesc) (ha : 0 < t.align) :
    allocPtr st t =
      (APtr.heap st.allocs.length,
       { st with allocs := st.allocs ++ [t],
                 droppers :=
                   st.droppers ++ (if t.needsDrop then [st.allocs.length] else []) }) := by
  have h16 := allocationSize_ge t ha
  have hne : ¬ allocationSize t = 0 := by omega
  cases hd : t.needsDrop <;> simp [allocPtr, hne, hd]

theorem allocPtr_index (st : ArenaState) (t : TypeDesc) :
    ((allocPtr st t).2).index = st.index := by
  unfold allocPtr
  split
  · rfl
  · split <;> rfl

theorem allocOwn_arenaIndex (st : ArenaState) (t : TypeDesc) :
    (allocOwn st t).1.arenaIndex = st.index := by
  unfold allocOwn
  rcases h : allocPtr st t with ⟨p, st1⟩
  rfl

theorem allocOwn_index (st : ArenaState) (t : TypeDesc) :
    ((allocOwn st t).2).index = st.index := by
  unfold allocOwn
  rcases h : allocPtr st t with ⟨p, st1⟩
  have := allocPtr_index st t
  rw [h] at this
  exact this

theorem allocMany_spec :
    ∀ (ts : List TypeDesc) (st : ArenaState), (∀ t ∈ ts, 0 < t.align) →
      allocMany st ts =
        { index := st.index, allocs := st.allocs ++ ts,
          droppers := st.droppers ++ needDropIndicesFrom st.allocs.length ts } := by
  intro ts
  induction ts with
  | nil => intro st h; simp [allocMany, needDropIndicesFrom]
  | cons t ts ih =>
    intro st h
    have ht : 0 < t.align := h t (by simp)
    have hts : ∀ u ∈ ts, 0 < u.align := fun u hu => h u (by simp [hu])
    rw [allocMany, allocPtr_of_pos st t ht, ih _ hts]
    simp [needDropIndicesFrom]

theorem needDropIndicesFrom_ge :
    ∀ (ts : List TypeDesc) (base i : Nat), i ∈ needDropIndicesFrom base ts → base ≤ i := by
  intro ts
  induction ts with
  | nil => intro base i h; simp [needDropIndicesFrom] at h
  | cons t ts ih =>
    intro base i h
    rw [needDropIndicesFrom] at h
    rcases List.mem_append.mp h with h1 | h2
    · cases hd : t.needsDrop
      · rw [hd] at h1; simp at h1
      · rw [hd] at h1; simp at h1; omega
    · have := ih (base + 1) i h2; omega

theorem needDropIndicesFrom_nodup :
    ∀ (ts : List TypeDesc) (base : Nat), (needDropIndicesFrom base ts).Nodup := by
  intro ts
  induction ts with
  | nil => intro base; simp [needDropIndicesFrom]
  | cons t ts ih =>
    intro base
    rw [needDropIndicesFrom]
    cases hd : t.needsDrop
    · simpa using ih (base + 1)
    · simp only [if_true, List.singleton_append, List.nodup_cons]
      refine ⟨fun hmem => ?_, ih (base + 1)⟩
      have := needDropIndicesFrom_ge ts (base + 1) base hmem
      omega

theorem filterMap_dropIndexOf_run (l : List Nat) :
    (l.map DropEvent.runDropper).filterMap dropIndexOf = l := by
  induction l with
  | nil => rfl
  | cons x xs ih => simp [dropIndexOf, ih]

theorem filterMap_dropIndexOf_dealloc (l : List Nat) :
    (l.map DropEvent.dealloc).filterMap dropIndexOf = [] := by
  induction l with
  | nil => rfl
  | cons x xs ih => simp [dropIndexOf, ih]

theorem dropRunOrder_eq_droppers (st : ArenaState) : dropRunOrder st = st.droppers := by
  unfold dropRunOrder arenaDropEvents
  rw [List.filterMap_append, filterMap_dropIndexOf_run, filterMap_dropIndexOf_dealloc,
    List.append_nil]

theorem counterAfter_eq (c0 : Nat) : ∀ n, counterAfter c0 n = c0 + n := by
  intro n
  induction n with
  | zero => rfl
  | succ k ih =>
    rw [counterAfter, arenaNew, ih]
    rfl

theorem arenaAt_index (c0 n : Nat) : (arenaAt c0 n).index = c0 + n := by
  rw [arenaAt, arenaNew, counterAfter_eq]

theorem popBack_isSome {α : Type} :
    ∀ (xs : List α) (x : α), (popBack (x :: xs)).isSome = true := by
  intro xs
  induction xs with
  | nil => intro x; rfl
  | cons y ys ih =>
    intro x
    rw [popBack]
    cases hp : popBack (y :: ys) with
    | none => have := ih y; rw [hp] at this; simp at this
    | some p => simp

theorem popBack_none {α : Type} (l : List α) (h : popBack l = none) : l = [] := by
  cases l with
  | nil => rfl
  | cons x xs =>
    have := popBack_isSome xs x
    rw [h] at this
    simp at this

theorem popBack_some {α : Type} :
    ∀ (l : List α) (a : α) (r : List α), popBack l = some (a, r) →
      l = r ++ [a] ∧ r.length + 1 = l.length := by
  intro l
  induction l with
  | nil => intro a r h; simp [popBack] at h
  | cons x xs ih =>
    intro a r h
    cases xs with
    | nil =>
      rw [popBack] at h
      simp at h
      simp [h.1, h.2]
    | cons y ys =>
      rw [popBack] at h
      cases hp : popBack (y :: ys) with
      | none =>
        rw [hp] at h
        simp at h
      | some p =>
        rw [hp] at h
        rcases p with ⟨pa, pr⟩
        simp at h
        rcases h with ⟨h1, h2⟩
        subst h1
        subst h2
        rcases ih pa pr hp with ⟨heq, hlen⟩
        constructor
        · simp [heq]
        · simp at hlen ⊢
          omega

theorem cacheCell_erased [DecidableEq Q] (st : St Q R) (q : Q) :
    ((cacheCell st q).2).erased = st.erased := by
  unfold cacheCell
  cases assoc st.cells q <;> rfl

theorem materialize_erased [DecidableEq Q] (run : Q → Comp Q R) (st : St Q R) (q : Q) :
    ((materialize run st q).2).erased = st.erased := by
  unfold materialize
  rcases h : cacheCell st q with ⟨c, st1⟩
  have := cacheCell_erased st q
  rw [h] at this
  exact this

theorem materialize_query [DecidableEq Q] (run : Q → Comp Q R) (st : St Q R) (q : Q) :
    ((materialize run st q).1).query = q := by
  unfold materialize
  rcases h : cacheCell st q with ⟨c, st1⟩
  rfl

theorem drainGo_spec [DecidableEq Q] (run : Q → Comp Q R) :
    ∀ (fuel : Nat) (st : St Q R) (fq : List (Task Q R)), st.erased.length ≤ fuel →
      ((drainGo run fuel st fq).2).map Task.query = fq.map Task.query ++ st.erased.reverse ∧
      ((drainGo run fuel st fq).1).erased = [] := by
  intro fuel
  induction fuel with
  | zero =>
    intro st fq h
    have hnil : st.erased = [] := List.length_eq_zero.mp (Nat.le_zero.mp h)
    rw [drainGo]
    simp [hnil]
  | succ n ih =>
    intro st fq h
    rw [drainGo]
    cases hp : popBack st.erased with
    | none =>
      have hnil := popBack_none _ hp
      simp [hnil]
    | some p =>
      rcases p with ⟨q, rest⟩
      dsimp only
      rcases popBack_some _ _ _ hp with ⟨heq, hlen⟩
      rcases hm : materialize run { st with erased := rest } q with ⟨t, st2⟩
      dsimp only
      have hq : t.query = q := by
        have := materialize_query run { st with erased := rest } q
        rw [hm] at this
        exact this
      have hst2 : st2.erased = rest := by
        have := materialize_erased run { st with erased := rest } q
        rw [hm] at this
        exact this
      have hfuel : st2.erased.length ≤ n := by
        rw [hst2]
        rw [heq] at h
        simp at h
        omega
      rcases ih st2 (fq ++ [t]) hfuel with ⟨ih1, ih2⟩
      refine ⟨?_, ih2⟩
      rw [ih1, hst2, heq]
      simp [hq]

/-! ## Claim theorems -/

/-- C4 counterexample: after allocating two droppable values (two `Vec`s, as
in the `dropping` test), `impl Drop for Arena` runs the drop thunks in
registration order `[0, 1]` (the `droppers.drain(..)` loop iterates front to
back), not in the claimed reverse order `[1, 0]`. -/
theorem arena_drop_not_reverse :
    (allocMany arenaInit [vecDesc, vecDesc]).droppers = [0, 1] ∧
    dropRunOrder (allocMany arenaInit [vecDesc, vecDesc]) = [0, 1] ∧
    ¬ dropRunOrder (allocMany arenaInit [vecDesc, vecDesc])
        = (allocMany arenaInit [vecDesc, vecDesc]).droppers.reverse := by decide

/-- C4 (amended): when an `Arena` is dropped, every allocation that registered
a drop thunk has its destructor run exactly once, the drop thunks run in the
order of need-drop registration (first registered runs first), and afterwards
every allocation is deallocated.  For an arbitrary allocation sequence `ts`,
the registered droppers are exactly the indices of the drop-needing
allocations in order, the executed drop order equals that registration order
(each index occurring exactly once by `Nodup`), and the event list is all
destructor runs followed by the deallocation of every allocation. -/
theorem arena_drop_registration_order (ts : List TypeDesc)
    (hpos : ∀ t ∈ ts, 0 < t.align) :
    (allocMany arenaInit ts).droppers = needDropIndices ts ∧
    dropRunOrder (allocMany arenaInit ts) = needDropIndices ts ∧
    (needDropIndices ts).Nodup ∧
    arenaDropEvents (allocMany arenaInit ts) =
      (needDropIndices ts).map DropEvent.runDropper ++
        (List.range ts.length).map DropEvent.dealloc := by
  have hA := allocMany_spec ts arenaInit hpos
  have hdrop : (allocMany arenaInit ts).droppers = needDropIndices ts := by
    rw [hA]
    simp [arenaInit, needDropIndices]
  have hallocs : (allocMany arenaInit ts).allocs = ts := by
    rw [hA]
    simp [arenaInit]
  refine ⟨hdrop, ?_, needDropIndicesFrom_nodup ts 0, ?_⟩
  · rw [dropRunOrder_eq_droppers, hdrop]
  · unfold arenaDropEvents
    rw [hdrop, hallocs]

/-- Witness for `arena_drop_registration_order` at a concrete allocation
sequence of two droppable values around a unit value. -/
theorem arena_drop_registration_order_witness :
    (∀ t ∈ [vecDesc, unitDesc, vecDesc], 0 < t.align) ∧
    ((allocMany arenaInit [vecDesc, unitDesc, vecDesc]).droppers
        = needDropIndices [vecDesc, unitDesc, vecDesc] ∧
     dropRunOrder (allocMany arenaInit [vecDesc, unitDesc, vecDesc])
        = needDropIndices [vecDesc, unitDesc, vecDesc] ∧
     (needDropIndices [vecDesc, unitDesc, vecDesc]).Nodup ∧
     arenaDropEvents (allocMany arenaInit [vecDesc, unitDesc, vecDesc]) =
       (needDropIndices [vecDesc, unitDesc, vecDesc]).map DropEvent.runDropper ++
         (List.range ([vecDesc, unitDesc, vecDesc] : List TypeDesc).length).map
           DropEvent.dealloc) :=
  ⟨by decide, arena_drop_registration_order [vecDesc, unitDesc, vecDesc] (by decide)⟩

/-- C5 counterexample: allocating the zero-sized `()` (the `zst` test) does
not take the sentinel branch: `Layout::new::<Allocation<()>>()` has size 16
(the `Layout` header), so the allocation goes through the normal path, is
recorded in the all-allocations list, and the returned pointer points into the
heap block, contradicting the claimed dangling sentinel and empty lists. -/
theorem zst_alloc_not_sentinel :
    allocationSize unitDesc = 16 ∧
    (allocPtr arenaInit unitDesc).1 = APtr.heap 0 ∧
    ((allocPtr arenaInit unitDesc).2).allocs = [unitDesc] ∧
    (alloc arenaInit unitDesc).1 = APtr.heap 0 ∧
    (allocPinned arenaInit unitDesc).1 = APtr.heap 0 ∧
    (allocOwn arenaInit unitDesc).1.ptr = APtr.heap 0 ∧
    (allocOwnPinned arenaInit unitDesc).1.ptr = APtr.heap 0 ∧
    ¬ (allocPtr arenaInit unitDesc).1 = APtr.dangling unitDesc.align ∧
    ¬ ((allocPtr arenaInit unitDesc).2).allocs = [] := by decide

/-- C5 (amended): the zero-size test in `Arena::alloc_ptr` inspects the layout
of the `Allocation<T>` wrapper, whose 16-byte header makes the size at least
16 for every `T`, so the dangling-sentinel branch is unreachable: every
allocation operation, zero-sized `T` included, heap-allocates, records the
allocation in the all-allocations list (and in the drop list exactly when `T`
needs drop) and returns a pointer into the heap block. -/
theorem alloc_zero_sized_recorded (st : ArenaState) (t : TypeDesc) (ha : 0 < t.align) :
    16 ≤ allocationSize t ∧
    (allocPtr st t).1 = APtr.heap st.allocs.length ∧
    ((allocPtr st t).2).allocs = st.allocs ++ [t] ∧
    ((allocPtr st t).2).droppers
      = st.droppers ++ (if t.needsDrop then [st.allocs.length] else []) ∧
    (alloc st t).1 = APtr.heap st.allocs.length ∧
    (allocPinned st t).1 = APtr.heap st.allocs.length ∧
    (allocOwn st t).1.ptr = APtr.heap st.allocs.length ∧
    (allocOwnPinned st t).1.ptr = APtr.heap st.allocs.length := by
  have h16 := allocationSize_ge t ha
  have hE := allocPtr_of_pos st t ha
  refine ⟨h16, ?_, ?_, ?_, ?_, ?_, ?_, ?_⟩ <;>
    simp [alloc, allocPinned, allocOwn, allocOwnPinned, hE]

/-- Witness for `alloc_zero_sized_recorded` at the zero-sized unit type on a
fresh arena. -/
theorem alloc_zero_sized_recorded_witness :
    0 < unitDesc.align ∧
    (16 ≤ allocationSize unitDesc ∧
     (allocPtr arenaInit unitDesc).1 = APtr.heap arenaInit.allocs.length ∧
     ((allocPtr arenaInit unitDesc).2).allocs = arenaInit.allocs ++ [unitDesc] ∧
     ((allocPtr arenaInit unitDesc).2).droppers
       = arenaInit.droppers
           ++ (if unitDesc.needsDrop then [arenaInit.allocs.length] else []) ∧
     (alloc arenaInit unitDesc).1 = APtr.heap arenaInit.allocs.length ∧
     (allocPinned arenaInit unitDesc).1 = APtr.heap arenaInit.allocs.length ∧
     (allocOwn arenaInit unitDesc).1.ptr = APtr.heap arenaInit.allocs.length ∧
     (allocOwnPinned arenaInit unitDesc).1.ptr = APtr.heap arenaInit.allocs.length) :=
  ⟨by decide, alloc_zero_sized_recorded arenaInit unitDesc (by decide)⟩

/-- C7: `Arena::try_get` returns the borrow exactly when the arena index
stored in the handle equals the index of this arena and the distinguished
`DifferentArenaError` otherwise; a handle allocated by the `i`-th arena
resolves in that arena and fails in the `j`-th arena for any `j` distinct
from `i`, because the process-wide monotonic counter gives distinct arenas
distinct indices. -/
theorem try_get_checks_arena_index (c0 i j : Nat) (t : TypeDesc) (hij : i ≠ j) :
    (∀ (st : ArenaState) (r : ARef),
        (tryGet st r = Except.ok r.ptr ↔ r.arenaIndex = st.index) ∧
        (tryGet st r = Except.error DifferentArenaError.mk ↔ ¬ r.arenaIndex = st.index)) ∧
    (arenaAt c0 i).index ≠ (arenaAt c0 j).index ∧
    tryGet ((allocOwn (arenaAt c0 i) t).2) (ownDowngrade (allocOwn (arenaAt c0 i) t).1)
      = Except.ok (ownDowngrade (allocOwn (arenaAt c0 i) t).1).ptr ∧
    tryGet (arenaAt c0 j) (ownDowngrade (allocOwn (arenaAt c0 i) t).1)
      = Except.error DifferentArenaError.mk := by
  have hgen : ∀ (st : ArenaState) (r : ARef),
      (tryGet st r = Except.ok r.ptr ↔ r.arenaIndex = st.index) ∧
      (tryGet st r = Except.error DifferentArenaError.mk ↔ ¬ r.arenaIndex = st.index) := by
    intro st r
    unfold tryGet
    by_cases h : r.arenaIndex = st.index
    · simp [h]
    · simp [h]
  have hd : (ownDowngrade (allocOwn (arenaAt c0 i) t).1).arenaIndex = c0 + i := by
    show (allocOwn (arenaAt c0 i) t).1.arenaIndex = c0 + i
    rw [allocOwn_arenaIndex, arenaAt_index]
  refine ⟨hgen, ?_, ?_, ?_⟩
  · rw [arenaAt_index, arenaAt_index]
    omega
  · refine (hgen _ _).1.mpr ?_
    rw [hd, allocOwn_index, arenaAt_index]
  · refine (hgen _ _).2.mpr ?_
    rw [hd, arenaAt_index]
    omega

/-- Witness for `try_get_checks_arena_index`: the first two arenas created
from a fresh counter. -/
theorem try_get_checks_arena_index_witness :
    (0 : Nat) ≠ 1 ∧
    ((∀ (st : ArenaState) (r : ARef),
        (tryGet st r = Except.ok r.ptr ↔ r.arenaIndex = st.index) ∧
        (tryGet st r = Except.error DifferentArenaError.mk ↔ ¬ r.arenaIndex = st.index)) ∧
     (arenaAt 0 0).index ≠ (arenaAt 0 1).index ∧
     tryGet ((allocOwn (arenaAt 0 0) unitDesc).2)
        (ownDowngrade (allocOwn (arenaAt 0 0) unitDesc).1)
       = Except.ok (ownDowngrade (allocOwn (arenaAt 0 0) unitDesc).1).ptr ∧
     tryGet (arenaAt 0 1) (ownDowngrade (allocOwn (arenaAt 0 0) unitDesc).1)
       = Except.error DifferentArenaError.mk) :=
  ⟨by decide, try_get_checks_arena_index 0 0 1 unitDesc (by decide)⟩

/-- C10: for a handle carrying the index of a different arena, the non-try
resolution operations `Arena::get`, `Arena::get_mut` and
`Arena::get_mut_pinned` panic (`none`), because each unwraps the
`DifferentArenaError` returned by its `try_` counterpart instead of surfacing
an error value. -/
theorem get_unwraps_different_arena (st : ArenaState) (r : ARef) (o : AOwn)
    (p : AOwnPinned) (hr : r.arenaIndex ≠ st.index) (ho : o.arenaIndex ≠ st.index)
    (hp : p.arenaIndex ≠ st.index) :
    tryGet st r = Except.error DifferentArenaError.mk ∧
    tryGetMut st o = Except.error DifferentArenaError.mk ∧
    tryGetMutPinned st p = Except.error DifferentArenaError.mk ∧
    arenaGet st r = none ∧ arenaGetMut st o = none ∧ arenaGetMutPinned st p = none := by
  unfold arenaGet arenaGetMut arenaGetMutPinned tryGet tryGetMut tryGetMutPinned
  simp [hr, ho, hp, Except.toOption]

/-- Witness for `get_unwraps_different_arena`: handles tagged with arena
index 1 presented to the arena of index 0. -/
theorem get_unwraps_different_arena_witness :
    ((⟨APtr.heap 0, 1⟩ : ARef).arenaIndex ≠ arenaInit.index) ∧
    ((⟨APtr.heap 0, 1⟩ : AOwn).arenaIndex ≠ arenaInit.index) ∧
    ((⟨APtr.heap 0, 1⟩ : AOwnPinned).arenaIndex ≠ arenaInit.index) ∧
    (tryGet arenaInit ⟨APtr.heap 0, 1⟩ = Except.error DifferentArenaError.mk ∧
     tryGetMut arenaInit ⟨APtr.heap 0, 1⟩ = Except.error DifferentArenaError.mk ∧
     tryGetMutPinned arenaInit ⟨APtr.heap 0, 1⟩ = Except.error DifferentArenaError.mk ∧
     arenaGet arenaInit ⟨APtr.heap 0, 1⟩ = none ∧
     arenaGetMut arenaInit ⟨APtr.heap 0, 1⟩ = none ∧
     arenaGetMutPinned arenaInit ⟨APtr.heap 0, 1⟩ = none) :=
  ⟨by decide, by decide, by decide,
   get_unwraps_different_arena arenaInit ⟨APtr.heap 0, 1⟩ ⟨APtr.heap 0, 1⟩
     ⟨APtr.heap 0, 1⟩ (by decide) (by decide) (by decide)⟩

/-- C9: polling an `Ongoing` yields `Ready` with the contained value when the
cell is full and `Pending` when it is empty; the poll never registers the
context waker and its outcome does not depend on the context at all. -/
theorem ongoing_poll_ready_iff_full {R C : Type} (v : R) (cell : Option R)
    (cx cx2 : C) :
    ongoingPoll (some v) cx = (PollRes.ready v, false) ∧
    ongoingPoll (none : Option R) cx = (PollRes.pending, false) ∧
    ongoingPoll cell cx = ongoingPoll cell cx2 := by
  refine ⟨rfl, rfl, ?_⟩
  cases cell <;> rfl

/-- C8 (code bug): `Name::fxhash` does not compute the chunked FxHash for most
inputs.  Its 8-byte loop tests the length of the whole slice (which never
changes) instead of the remaining bytes, and the tail guards do the same, so
const evaluation reads past the end of the byte string: `Name::new("AddTwo")`,
taken from the doc example of `Scheduler::query` in `lib.rs`, panics with an
index out of bounds (byte length 6 reaches the 1-byte tail at offset 6), and
so does every byte length outside 0, 1, 3, 7 — for example length 9
(`"SomeQuery"` from the same doc example).  The in-repo `Name::new("Fib")`
(length 3) does compute the 2-byte-then-1-byte chunk combination, and `Name`
equality compares only hashes, the string playing no part. -/
theorem name_hash_out_of_bounds :
    nameNew addTwoBytes = none ∧
    nameNew (List.range 9) = none ∧
    nameNew fibBytes
      = some { hash := addToHash (addToHash 0 (70 + 256 * 105)) 98, str := fibBytes } ∧
    nameEq { hash := 5, str := [1] } { hash := 5, str := [2] } = true ∧
    nameEq { hash := 5, str := [1] } { hash := 6, str := [1] } = false := by decide

/-- C3 counterexample: with the descriptors of queries 10 and 20 enqueued in
this order by `Scheduler::query`, the drain of the next trampoline pass
materializes query 20 first: the pending queue is a `Vec` drained by `pop`
from the back, so first-execution order is reversed, not preserved. -/
theorem drain_order_counterexample :
    twoPendingSt.erased = [10, 20] ∧
    ((drain constRun twoPendingSt []).2).map Task.query = [20, 10] ∧
    ¬ ((drain constRun twoPendingSt []).2).map Task.query = [10, 20] := by decide

/-- C3 (amended): in each trampoline pass the erased task descriptors are
drained and materialized in the reverse of the order in which
`Scheduler::query` enqueued them (LIFO): the pass appends to the live-task
vector the pending descriptors back to front and leaves the pending queue
empty. -/
theorem drain_order_reversed [DecidableEq Q] (run : Q → Comp Q R) (st : St Q R)
    (fq : List (Task Q R)) :
    ((drain run st fq).2).map Task.query = fq.map Task.query ++ st.erased.reverse ∧
    ((drain run st fq).1).erased = [] :=
  drainGo_spec run st.erased.length st fq (Nat.le_refl _)

/-- C1 (code bug): a requested query can end a trampoline run with zero `run`
invocations.  The seed query 0 of `c1Run` requests query 1 and completes
without awaiting it; the pass that completes the seed empties the future
queue, and the trampoline loop, which tests only `future_queue.is_empty()`,
exits with the descriptor of query 1 still in the pending queue.  At exit the
trampoline has terminated (fuel is not exhausted), query 1 was requested (its
cell exists and it is still in the enqueued set), yet its `run` count is 0,
not the claimed 1; the seed ran exactly once and nothing panicked. -/
theorem requested_query_never_runs :
    (requestTrampST c1Run 10 0).map (fun st =>
        (st.runs.count 1, (assoc st.cells 1).isSome, st.enqueued.contains 1,
         st.erased, st.runs.count 0, st.panicked))
      = some (0, true, true, [1], 1, false) := by decide

/-- C2 (code bug): on the pure, deterministic query family `c2Run` with seed 0
the two trampoline modes produce different cell contents.  Both modes
terminate without panicking; the single-threaded mode computes every
requested query, filling the cell of query 4 with 40, while the parallel mode
(its rayon pass linearized in index order, one feasible schedule) finishes
query 3 and query 2 in the same final pass, exits with the descriptor of
query 4 still pending, and leaves the cell of query 4 empty. -/
theorem trampoline_modes_diverge :
    (requestTrampST c2Run 20 0).map (fun st =>
        ((List.range 5).map (resultOf st), st.erased, st.panicked))
      = some ([some 100, some 10, some 31, some 30, some 40], [], false) ∧
    (requestTrampPar c2Run 20 0).map (fun st =>
        ((List.range 5).map (resultOf st), st.erased, st.panicked))
      = some ([some 100, some 10, some 31, some 30, none], [4], false) ∧
    ¬ ((requestTrampST c2Run 20 0).map (fun st => (List.range 5).map (resultOf st))
        = (requestTrampPar c2Run 20 0).map (fun st => (List.range 5).map (resultOf st))) := by
  decide

set_option maxHeartbeats 4000000 in
/-- C6: `request_and_trampoline(Fib(30))` with the default (single-threaded)
trampoline returns 832040, and each `Fib(k)` for `k` between 0 and 30 has its
`run` invoked exactly once, 31 invocations in total, with no panic. -/
theorem rec_fib_memoized :
    requestAndTrampolineST fibRun 40 30 = some 832040 ∧
    (requestTrampST fibRun 40 30).map (fun st =>
        ((List.range 31).all (fun k => st.runs.count k == 1), st.runs.length,
         st.panicked))
      = some (true, 31, false) := by decide

end RQ
